import Mathlib

/-!
Shallow embedding of the Testflinger v1 API (src/server/src/api/v1.py).

The server is a thin Flask layer over MongoDB.  We model each Mongo
collection as a Lean list of documents in natural (insertion) scan order,
and each endpoint as a pure function from the relevant collection (plus the
request data) to a response value and the updated collection.  MongoDB's
atomic primitives (`find_one_and_update`, `find_one_and_delete`,
`update_one`) are each a single step of the model, which is exactly the
atomicity the server delegates to the store: a concurrent execution of
requests is an interleaving of these atomic steps, i.e. some sequential
composition of the functions below.

JSON values are modelled by `JVal`, JSON objects / Mongo documents by
ordered association lists (`Data`), matching Python dict semantics
(first-match lookup, in-place update preserving position, append on new
key).
-/

namespace Testflinger

/-- JSON scalar values as they appear in request payloads and documents. -/
inductive JVal where
  | s (v : String)
  | n (v : Int)
  | b (v : Bool)
  | null
  deriving DecidableEq

/-- A JSON object / Mongo (sub)document: ordered key-value pairs. -/
abbrev Data := List (String × JVal)

/-- Python `d.get(k)` / Mongo field access: value at the first binding of `k`. -/
def dget (d : Data) (k : String) : Option JVal :=
  match d with
  | [] => none
  | (k0, v0) :: rest => if k0 = k then some v0 else dget rest k

/-- Python `d[k] = v` / Mongo `$set`: replace the binding of `k` in place,
or append a new binding at the end. -/
def dset (d : Data) (k : String) (v : JVal) : Data :=
  match d with
  | [] => [(k, v)]
  | (k0, v0) :: rest => if k0 = k then (k, v) :: rest else (k0, v0) :: dset rest k v

/-- Python `d.pop(k, None)`, the removal part: drop the binding of `k`. -/
def dremove (d : Data) (k : String) : Data :=
  match d with
  | [] => []
  | (k0, v0) :: rest => if k0 = k then rest else (k0, v0) :: dremove rest k

/-- Python truthiness of an optional JSON value (`if job_queue:` etc.):
`None`, `""`, `0`, `False` and `null` are falsy. -/
def truthy : Option JVal → Bool
  | none => false
  | some (.s v) => !(v == "")
  | some (.n v) => !(v == 0)
  | some (.b v) => v
  | some .null => false

/-! ### UUID validation (`check_valid_uuid`, which calls Python `uuid.UUID`)

Python's `uuid.UUID(hex)` constructor normalises the string by removing
every occurrence of `urn:` and then `uuid:`, stripping `{`/`}` from both
ends, and removing every `-`; it then requires exactly 32 characters, all
hexadecimal digits.  (Python's `int(s, 16)` is marginally laxer about
underscores and whitespace inside the 32 characters; that corner is not
load-bearing for any claim and is not modelled.) -/

/-- Remove every occurrence of the substring `urn:`, scanning left to right
(Python `str.replace("urn:", "")`). -/
def removeUrn : List Char → List Char
  | 'u' :: 'r' :: 'n' :: ':' :: rest => removeUrn rest
  | c :: rest => c :: removeUrn rest
  | [] => []

/-- Remove every occurrence of the substring `uuid:`, scanning left to right
(Python `str.replace("uuid:", "")`). -/
def removeUuidTag : List Char → List Char
  | 'u' :: 'u' :: 'i' :: 'd' :: ':' :: rest => removeUuidTag rest
  | c :: rest => c :: removeUuidTag rest
  | [] => []

/-- Is the character one of the braces stripped by Python `str.strip("{}")`? -/
def isBraceChar (c : Char) : Bool := c = '\x7b' || c = '\x7d'

/-- Python `str.strip("{}")`: drop leading and trailing brace characters. -/
def stripEndsBraces (cs : List Char) : List Char :=
  ((cs.dropWhile isBraceChar).reverse.dropWhile isBraceChar).reverse

/-- Hexadecimal digit as accepted by Python `int(_, 16)`. -/
def isHexDigitPy (c : Char) : Bool :=
  ('0' ≤ c && c ≤ '9') || ('a' ≤ c && c ≤ 'f') || ('A' ≤ c && c ≤ 'F')

/-- Model of `check_valid_uuid` from v1.py: `True` iff `uuid.UUID(job_id)`
parses. -/
def check_valid_uuid (jid : String) : Bool :=
  let cs := stripEndsBraces (removeUuidTag (removeUrn jid.data))
  let hex := cs.filter (fun c => c != '-')
  hex.length = 32 && hex.all isHexDigitPy

/-! ### UUID generation (`str(uuid.uuid4())`)

`uuid.uuid4()` draws 128 random bits, forces the version field to 4 and the
variant field to RFC-4122 (`10xx`), and `str` renders the canonical
lowercase `8-4-4-4-12` form.  We model the randomness as an explicit `Nat`
parameter: `uuid4 r` is the string produced from the 128-bit value
`r % 2^128`.  Nibble `i` (from the least significant end) of the value is
hex digit `31 - i` of the rendered string; the version nibble (string digit
12) is forced to `4` and the variant nibble (string digit 16, i.e. value
nibble 15) is forced to `8 + (nibble % 4)`. -/

/-- Lowercase hexadecimal digit character for `n < 16`. -/
def hexChar (n : Nat) : Char :=
  if n < 10 then Char.ofNat (48 + n) else Char.ofNat (87 + n)

/-- Hex digit character of nibble `i` (from the least significant end) of `u`. -/
def hexNibble (u i : Nat) : Char := hexChar (u / 16 ^ i % 16)

/-- The 36 characters of `str(uuid.UUID(int=u', version=4))` where
`u' = r % 2^128` with version and variant nibbles forced. -/
def uuid4Chars (r : Nat) : List Char :=
  let u := r % 2 ^ 128
  ((List.range 8).map fun p => hexNibble u (31 - p))
    ++ ('-' :: (((List.range 4).map fun p => hexNibble u (23 - p))
    ++ ('-' :: '4' :: (((List.range 3).map fun p => hexNibble u (18 - p))
    ++ ('-' :: hexChar (8 + u / 16 ^ 15 % 4)
      :: (((List.range 3).map fun p => hexNibble u (14 - p))
    ++ ('-' :: ((List.range 12).map fun p => hexNibble u (11 - p)))))))))

/-- Model of `str(uuid.uuid4())` at randomness `r`. -/
def uuid4 (r : Nat) : String := String.mk (uuid4Chars r)

/-- Lowercase hexadecimal digit, as produced by `str(uuid.UUID(...))`. -/
def isLowerHex (c : Char) : Bool :=
  ('0' ≤ c && c ≤ '9') || ('a' ≤ c && c ≤ 'f')

/-- A character a canonical UUID string may contain: a lowercase hex digit
or a hyphen. -/
def charsOk (c : Char) : Bool := isLowerHex c || c == '-'

/-- Consume exactly `n` lowercase-hex characters, returning the rest. -/
def hexRun : Nat → List Char → Option (List Char)
  | 0, rest => some rest
  | n + 1, c :: rest => if isLowerHex c then hexRun n rest else none
  | _ + 1, [] => none

/-- Well-formed canonical version-4 UUID string (as a character list):
lowercase `8-4-4-4-12` hex groups, version digit `4`, RFC-4122 variant
digit in `8/9/a/b`. -/
def isV4 (cs : List Char) : Bool :=
  match hexRun 8 cs with
  | some ('-' :: r1) =>
    match hexRun 4 r1 with
    | some ('-' :: '4' :: r2) =>
      match hexRun 3 r2 with
      | some ('-' :: v :: r3) =>
        (v = '8' || v = '9' || v = 'a' || v = 'b') &&
          (isLowerHex v &&
            match hexRun 3 r3 with
            | some ('-' :: r4) => hexRun 12 r4 == some []
            | _ => false)
      | _ => false
    | _ => false
  | _ => false

/-- Well-formed canonical version-4 UUID string. -/
def isV4String (s : String) : Bool := isV4 s.data

/-! ### The jobs collection

A document of `mongo.db.jobs`, as created by `job_builder`: top-level fields
`job_id`, `created_at`, `job_data` (the producer payload, with any supplied
`job_id` popped out) and `result_data` (initially `{"job_state": "waiting"}`).
The collection is a list in natural scan order; Prometheus counter updates
(`jobs_metric`, `reservations_metric`) are observability side effects with no
influence on any response or document and are not modelled. -/

structure Job where
  job_id : String
  created_at : Nat
  job_data : Data
  result_data : Data
  deriving DecidableEq

/-- The fresh job document `job_builder` assembles around a payload. -/
def mkJob (jid : String) (now : Nat) (d : Data) : Job :=
  { job_id := jid, created_at := now, job_data := d,
    result_data := [("job_state", JVal.s "waiting")] }

/-- Model of `job_builder` from v1.py.  `genId` is the value of
`str(uuid.uuid4())` should the generate branch run; `none` models the
`ValueError` raised on a truthy string `job_id` that fails
`check_valid_uuid`.  Python keeps a supplied `job_id` only when it is a
truthy (non-empty) `str`; anything else (absent, empty, non-string) takes
the generate branch.  `data.pop("job_id", None)` removes the key in every
case. -/
def job_builder (genId : String) (now : Nat) (data : Data) : Option Job :=
  match dget data "job_id" with
  | some (JVal.s v) =>
    if v = "" then some (mkJob genId now (dremove data "job_id"))
    else if check_valid_uuid v then some (mkJob v now (dremove data "job_id"))
    else none
  | some _ => some (mkJob genId now (dremove data "job_id"))
  | none => some (mkJob genId now (dremove data "job_id"))

/-- Response of `POST /job`. -/
inductive PostResult where
  | ok (job_id : String)
  | invalidQueue
  | invalidId
  deriving DecidableEq

/-- Model of `job_post` from v1.py: reject a falsy `job_queue` (422), build
the job (400 on bad supplied id), insert it at the end of the collection and
return its id. -/
def job_post (genId : String) (now : Nat) (data : Data) (jobs : List Job) :
    PostResult × List Job :=
  if !truthy (dget data "job_queue") then (.invalidQueue, jobs)
  else
    match job_builder genId now data with
    | none => (.invalidId, jobs)
    | some j => (.ok j.job_id, jobs ++ [j])

/-- Mongo `find_one({"job_id": job_id})`: first document in scan order. -/
def find_one_job (jid : String) (jobs : List Job) : Option Job :=
  jobs.find? (·.job_id == jid)

/-- Response of `GET /job/<job_id>`. -/
inductive FetchResult where
  | ok (d : Data)
  | notFound
  | invalidId
  deriving DecidableEq

/-- Model of `job_get_id` from v1.py: validate the id, look the job up and
return its `job_data` with `job_id` merged in (`{}, 204` when absent). -/
def job_get_id (jid : String) (jobs : List Job) : FetchResult :=
  if !check_valid_uuid jid then .invalidId
  else
    match find_one_job jid jobs with
    | none => .notFound
    | some j => .ok (dset j.job_data "job_id" (JVal.s jid))

/-- The filter of `get_job`'s `find_one_and_update`:
`result_data.job_state == "waiting"` and `job_data.job_queue` in
`queue_list` (`$in` against a list of strings matches only an equal
string). -/
def jobMatches (ql : List String) (j : Job) : Bool :=
  decide (dget j.result_data "job_state" = some (JVal.s "waiting")) &&
    (match dget j.job_data "job_queue" with
     | some (JVal.s q) => ql.contains q
     | _ => false)

/-- The `$set` of `get_job`: `result_data.job_state := "running"`. -/
def setRunning (j : Job) : Job :=
  { j with result_data := dset j.result_data "job_state" (JVal.s "running") }

/-- Mongo `find_one_and_update` for the claim: atomically locate the first
matching document in scan order, set its state to running, and return the
pre-image. -/
def findOneAndUpdateClaim (ql : List String) : List Job → Option Job × List Job
  | [] => (none, [])
  | j :: rest =>
    if jobMatches ql j then (some j, setRunning j :: rest)
    else
      let (r, rest2) := findOneAndUpdateClaim ql rest
      (r, j :: rest2)

/-- The flattening `get_job` performs on the returned document:
`job = job_data; job["job_id"] = job_id`. -/
def flatten (j : Job) : Data := dset j.job_data "job_id" (JVal.s j.job_id)

/-- Model of `get_job` from v1.py: the atomic claim. -/
def get_job (ql : List String) (jobs : List Job) : Option Data × List Job :=
  let (r, jobs2) := findOneAndUpdateClaim ql jobs
  (r.map flatten, jobs2)

/-- Response of `GET /job`. -/
inductive ClaimResult where
  | job (d : Data)
  | noJob
  | noQueues
  deriving DecidableEq

/-- Model of the `job_get` handler from v1.py: 400 when no queue was given,
else the claimed job (200) or `{}` (204, "none available"). -/
def job_get (ql : List String) (jobs : List Job) : ClaimResult × List Job :=
  if ql.isEmpty then (.noQueues, jobs)
  else
    match get_job ql jobs with
    | (some d, jobs2) => (.job d, jobs2)
    | (none, jobs2) => (.noJob, jobs2)

/-- A sequence of claim calls applied one after the other; since each claim
is one atomic store operation, every concurrent execution of claims is some
such sequence. -/
def claimSeq (qls : List (List String)) (jobs : List Job) :
    List (Option Data) × List Job :=
  match qls with
  | [] => ([], jobs)
  | ql :: rest =>
    let (r, jobs1) := get_job ql jobs
    let (rs, jobs2) := claimSeq rest jobs1
    (r :: rs, jobs2)

/-- Mongo `update_one`: update the first document matching `p` in scan
order; the returned count is `modified_count` (for the updates in this file
a matched document is always actually modified, see the call sites). -/
def update_first (p : Job → Bool) (f : Job → Job) : List Job → List Job × Nat
  | [] => ([], 0)
  | j :: rest =>
    if p j then (f j :: rest, 1)
    else
      let (rest2, n) := update_first p f rest
      (j :: rest2, n)

/-- The `$set` of `result_post`: every posted key `k` is written to
`result_data.k`, in payload order. -/
def applyFields (rd : Data) (fields : Data) : Data :=
  fields.foldl (fun acc kv => dset acc kv.1 kv.2) rd

/-- The last value posted for key `k` in a field map, if any: the value that
wins under the per-field last-writer-wins merge of `result_post`. -/
def lastVal (fields : Data) (k : String) : Option JVal :=
  match fields with
  | [] => none
  | (k0, v0) :: rest =>
    match lastVal rest k with
    | some v => some v
    | none => if k0 = k then some v0 else none

/-- Response of `POST /result/<job_id>`. -/
inductive ResultPostResult where
  | ok
  | invalidId
  deriving DecidableEq

/-- Model of `result_post` from v1.py: validate the id, then
`update_one({"job_id": job_id}, {"$set": {... "result_data.k": v ...}})`
(no upsert) and answer `"OK"` regardless of whether a document matched. -/
def result_post (jid : String) (fields : Data) (jobs : List Job) :
    ResultPostResult × List Job :=
  if !check_valid_uuid jid then (.invalidId, jobs)
  else
    let (jobs2, _) := update_first (·.job_id == jid)
      (fun j => { j with result_data := applyFields j.result_data fields }) jobs
    (.ok, jobs2)

/-- Filter of `cancel_job`'s `update_one`: same `job_id` and
`result_data.job_state` not in `["cancelled", "complete", "completed"]`
(Mongo `$nin` also matches a document whose field is absent). -/
def cancelMatch (jid : String) (j : Job) : Bool :=
  j.job_id == jid &&
    (match dget j.result_data "job_state" with
     | some v =>
       !(v == JVal.s "cancelled" || v == JVal.s "complete" || v == JVal.s "completed")
     | none => true)

/-- The `$set` of `cancel_job`: `result_data.job_state := "cancelled"`. -/
def setCancelled (j : Job) : Job :=
  { j with result_data := dset j.result_data "job_state" (JVal.s "cancelled") }

/-- Response of the cancel action. -/
inductive CancelResult where
  | ok
  | conflict
  deriving DecidableEq

/-- Model of `cancel_job` from v1.py.  The filter excludes documents already
in a state equal to the value being set, so a matched document is always
modified and `modified_count` equals the matched count. -/
def cancel_job (jid : String) (jobs : List Job) : CancelResult × List Job :=
  let (jobs2, n) := update_first (cancelMatch jid) setCancelled jobs
  if n = 0 then (.conflict, jobs) else (.ok, jobs2)

/-- Response of `POST /job/<job_id>/action`. -/
inductive ActionResult where
  | ok
  | conflict
  | invalidId
  | badAction
  deriving DecidableEq

/-- Model of `action_post` from v1.py: validate the id and dispatch on the
action name.  The request schema (`schemas.ActionIn`, outside this file's
source) admits only `"cancel"`; any other name is rejected before the
handler runs, modelled by the `badAction` branch. -/
def action_post (jid : String) (action : String) (jobs : List Job) :
    ActionResult × List Job :=
  if !check_valid_uuid jid then (.invalidId, jobs)
  else if action = "cancel" then
    match cancel_job jid jobs with
    | (.ok, jobs2) => (.ok, jobs2)
    | (.conflict, jobs2) => (.conflict, jobs2)
  else (.badAction, jobs)

/-- Position of the LAST occurrence of `x` in `l`: the dict comprehension
`{job_id: pos for pos, job in enumerate(jobs)}` keeps the last position for
a repeated id, and `job_position_get` looks the target id up in it. -/
def lastIdxOf (l : List String) (x : String) : Option Nat :=
  match l with
  | [] => none
  | y :: rest =>
    match lastIdxOf rest x with
    | some k => some (k + 1)
    | none => if y == x then some 0 else none

/-- The enumeration `job_position_get` builds: all jobs with
`job_data.job_queue` equal to `q` and `result_data.job_state == "waiting"`,
in natural scan order.  (A `None` queue value in Mongo matches a document
whose field is absent, hence equality on `Option JVal`.) -/
def waitingFilter (q : Option JVal) (jobs : List Job) : List Job :=
  jobs.filter fun j =>
    decide (dget j.job_data "job_queue" = q) &&
      decide (dget j.result_data "job_state" = some (JVal.s "waiting"))

/-- Response of `GET /job/<job_id>/position`. -/
inductive PositionResult where
  | pos (n : Nat)
  | gone
  | invalidId
  deriving DecidableEq

/-- Model of `job_position_get` from v1.py: fetch the job (410 "not found or
already started" on 204), read its queue, enumerate the waiting jobs on that
queue and look the id up in the last-position dict (410 when absent). -/
def job_position_get (jid : String) (jobs : List Job) : PositionResult :=
  match job_get_id jid jobs with
  | .invalidId => .invalidId
  | .notFound => .gone
  | .ok jd =>
    let q := dget jd "job_queue"
    match lastIdxOf ((waitingFilter q jobs).map (·.job_id)) jid with
    | some k => .pos k
    | none => .gone

/-! ### The output collection (`mongo.db.output`) -/

/-- A document of the output collection: one buffer per job id. -/
structure OutputDoc where
  job_id : String
  updated_at : Nat
  output : List String
  deriving DecidableEq

/-- Model of `output_post` from v1.py: `update_one` with `upsert=True`,
`$set`-ing `updated_at` and `$push`-ing the chunk; a missing document is
created at the end of the collection. -/
def output_post (jid : String) (chunk : String) (ts : Nat) :
    List OutputDoc → List OutputDoc
  | [] => [{ job_id := jid, updated_at := ts, output := [chunk] }]
  | d :: rest =>
    if d.job_id == jid then
      { d with updated_at := ts, output := d.output ++ [chunk] } :: rest
    else d :: output_post jid chunk ts rest

/-- Mongo `find_one_and_delete({"job_id": job_id})`: atomically remove and
return the first matching document. -/
def find_one_and_delete (jid : String) :
    List OutputDoc → Option OutputDoc × List OutputDoc
  | [] => (none, [])
  | d :: rest =>
    if d.job_id == jid then (some d, rest)
    else
      let (r, rest2) := find_one_and_delete jid rest
      (r, d :: rest2)

/-- Response of `GET /result/<job_id>/output`. -/
inductive OutputGetResult where
  | content (s : String)
  | empty
  | invalidId
  deriving DecidableEq

/-- Model of `output_get` from v1.py (the drain): validate the id, atomically
fetch-and-delete the buffer, and return the chunks joined with newlines, or
204 when there is no document or its chunk list is empty (falsy). -/
def output_get (jid : String) (odb : List OutputDoc) :
    OutputGetResult × List OutputDoc :=
  if !check_valid_uuid jid then (.invalidId, odb)
  else
    let (r, odb2) := find_one_and_delete jid odb
    match r with
    | none => (.empty, odb2)
    | some d =>
      if d.output.isEmpty then (.empty, odb2)
      else (.content (String.intercalate "\n" d.output), odb2)

/-- Append a list of (chunk, timestamp) posts for one job, in order. -/
def appendAll (jid : String) (chunks : List (String × Nat))
    (odb : List OutputDoc) : List OutputDoc :=
  chunks.foldl (fun db c => output_post jid c.1 c.2 db) odb

/-! ### The artifact store (GridFS over `mongo.db.fs`)

`GridFS.put` always creates a new file version; prior versions are kept.
`get_last_version` returns the version with the most recent `uploadDate`
(ties are broken by an unspecified store order; we pick the later document,
and every claim below supplies strictly increasing timestamps so the tie
rule is irrelevant).  The chunk re-stamping in `artifacts_post` copies the
file's own `uploadDate` onto its chunks for an external TTL reaper; it
touches no field this model exposes.  Artifact bytes are modelled as an
opaque `String`. -/

structure FileDoc where
  filename : String
  uploadDate : Nat
  content : String
  deriving DecidableEq

/-- The document with the greatest upload date (on a tie, the later one in
scan order — the store leaves the tie order unspecified, and every claim
below supplies distinct timestamps). -/
def lastVersionDoc : List FileDoc → Option FileDoc
  | [] => none
  | f :: rest =>
    match lastVersionDoc rest with
    | none => some f
    | some g => if f.uploadDate ≤ g.uploadDate then some g else some f

/-- GridFS `get_last_version(filename)`: the matching version with the
greatest upload date. -/
def get_last_version (fn : String) (files : List FileDoc) : Option FileDoc :=
  lastVersionDoc (files.filter (·.filename == fn))

/-- Response of `POST /result/<job_id>/artifact`. -/
inductive ArtifactPostResult where
  | ok
  | invalidId
  deriving DecidableEq

/-- Model of `artifacts_post` from v1.py: validate the id, then store a new
version named `"<job_id>.artifact"` with upload timestamp `ts`. -/
def artifacts_post (jid : String) (content : String) (ts : Nat)
    (files : List FileDoc) : ArtifactPostResult × List FileDoc :=
  if !check_valid_uuid jid then (.invalidId, files)
  else (.ok, files ++ [{ filename := jid ++ ".artifact", uploadDate := ts,
                         content := content }])

/-- Response of `GET /result/<job_id>/artifact`. -/
inductive ArtifactGetResult where
  | file (content : String)
  | empty
  | invalidId
  deriving DecidableEq

/-- Model of `artifacts_get` from v1.py: validate the id and return the most
recently uploaded version, or 204 on `NoFile`. -/
def artifacts_get (jid : String) (files : List FileDoc) : ArtifactGetResult :=
  if !check_valid_uuid jid then .invalidId
  else
    match get_last_version (jid ++ ".artifact") files with
    | none => .empty
    | some f => .file f.content

/-! ### Concrete fixtures used by the witness theorems -/

/-- A syntactically valid version-4 UUID string. -/
def demoUuid : String := "11111111-1111-4111-8111-111111111111"

/-- A second, distinct valid version-4 UUID string. -/
def demoUuid2 : String := "22222222-2222-4222-8222-222222222222"

/-- A waiting job on queue `"devices"`. -/
def demoJob : Job := mkJob "aaaaaaaa-aaaa-4aaa-8aaa-aaaaaaaaaaaa" 0
  [("job_queue", JVal.s "devices")]

/-- A waiting job on queue `"devices"` whose id is `demoUuid`. -/
def demoJobU : Job := mkJob demoUuid 0 [("job_queue", JVal.s "devices")]

/-! ## Lemmas about the document model -/

lemma dget_dset_self (d : Data) (k : String) (v : JVal) :
    dget (dset d k v) k = some v := by
  induction d with
  | nil => simp [dset, dget]
  | cons kv rest ih =>
    obtain ⟨k0, v0⟩ := kv
    by_cases h : k0 = k
    · simp [dset, dget, h]
    · simp [dset, dget, h, ih]

lemma dget_dset_ne (d : Data) (k k2 : String) (v : JVal) (h : k2 ≠ k) :
    dget (dset d k v) k2 = dget d k2 := by
  have h2 : ¬k = k2 := fun he => h he.symm
  induction d with
  | nil => simp [dset, dget, h2]
  | cons kv rest ih =>
    obtain ⟨k0, v0⟩ := kv
    by_cases h0 : k0 = k
    · subst h0
      simp [dset, dget, h2]
    · simp [dset, dget, h0, ih]

lemma dremove_of_dget_none (d : Data) (k : String) (h : dget d k = none) :
    dremove d k = d := by
  induction d with
  | nil => rfl
  | cons kv rest ih =>
    obtain ⟨k0, v0⟩ := kv
    by_cases h0 : k0 = k
    · simp [dget, h0] at h
    · simp [dget, h0] at h
      simp [dremove, h0, ih h]

lemma applyFields_dget (fields : Data) (k : String) : ∀ rd : Data,
    dget (applyFields rd fields) k = Option.or (lastVal fields k) (dget rd k) := by
  induction fields with
  | nil => intro rd; simp [applyFields, lastVal, Option.or]
  | cons kv rest ih =>
    intro rd
    obtain ⟨k0, v0⟩ := kv
    have hstep : applyFields rd ((k0, v0) :: rest) = applyFields (dset rd k0 v0) rest := rfl
    rw [hstep, ih (dset rd k0 v0)]
    cases hrest : lastVal rest k with
    | some v => simp [lastVal, hrest, Option.or]
    | none =>
      by_cases h0 : k0 = k
      · subst h0
        simp [lastVal, hrest, Option.or, dget_dset_self]
      · simp [lastVal, hrest, Option.or, h0, dget_dset_ne rd k0 k v0 (fun he => h0 he.symm)]

/-! ## Inversion lemmas for the Mongo-style operations -/

lemma update_first_inv (p : Job → Bool) (f : Job → Job) (l : List Job) :
    (update_first p f l = (l, 0) ∧ ∀ x ∈ l, p x = false) ∨
      (∃ l1 j l2, l = l1 ++ j :: l2 ∧ (∀ x ∈ l1, p x = false) ∧ p j = true ∧
        update_first p f l = (l1 ++ f j :: l2, 1)) := by
  induction l with
  | nil => left; exact ⟨rfl, by simp⟩
  | cons j rest ih =>
    by_cases hp : p j
    · right
      exact ⟨[], j, rest, by simp, by simp, hp, by simp [update_first, hp]⟩
    · rcases ih with ⟨heq, hall⟩ | ⟨l1, j1, l2, hdec, hpre, hpj, heq⟩
      · left
        constructor
        · simp [update_first, hp, heq]
        · intro x hx
          rcases List.mem_cons.mp hx with rfl | hx2
          · exact eq_false_of_ne_true hp
          · exact hall x hx2
      · right
        refine ⟨j :: l1, j1, l2, by simp [hdec], ?_, hpj, ?_⟩
        · intro x hx
          rcases List.mem_cons.mp hx with rfl | hx2
          · exact eq_false_of_ne_true hp
          · exact hpre x hx2
        · simp [update_first, hp, heq]

lemma update_first_none (p : Job → Bool) (f : Job → Job) (l : List Job)
    (h : ∀ x ∈ l, p x = false) : update_first p f l = (l, 0) := by
  rcases update_first_inv p f l with ⟨heq, _⟩ | ⟨l1, j, l2, hdec, _, hpj, _⟩
  · exact heq
  · exact absurd (h j (by simp [hdec])) (by simp [hpj])

lemma claim_inv (ql : List String) (jobs : List Job) :
    (findOneAndUpdateClaim ql jobs = (none, jobs) ∧
        ∀ j ∈ jobs, jobMatches ql j = false) ∨
      (∃ l1 j l2, jobs = l1 ++ j :: l2 ∧ (∀ x ∈ l1, jobMatches ql x = false) ∧
        jobMatches ql j = true ∧
        findOneAndUpdateClaim ql jobs = (some j, l1 ++ setRunning j :: l2)) := by
  induction jobs with
  | nil => left; exact ⟨rfl, by simp⟩
  | cons j rest ih =>
    by_cases hp : jobMatches ql j
    · right
      exact ⟨[], j, rest, by simp, by simp, hp, by simp [findOneAndUpdateClaim, hp]⟩
    · rcases ih with ⟨heq, hall⟩ | ⟨l1, j1, l2, hdec, hpre, hpj, heq⟩
      · left
        constructor
        · simp [findOneAndUpdateClaim, hp, heq]
        · intro x hx
          rcases List.mem_cons.mp hx with rfl | hx2
          · exact eq_false_of_ne_true hp
          · exact hall x hx2
      · right
        refine ⟨j :: l1, j1, l2, by simp [hdec], ?_, hpj, ?_⟩
        · intro x hx
          rcases List.mem_cons.mp hx with rfl | hx2
          · exact eq_false_of_ne_true hp
          · exact hpre x hx2
        · simp [findOneAndUpdateClaim, hp, heq]

lemma claim_none (ql : List String) (jobs : List Job)
    (h : ∀ j ∈ jobs, jobMatches ql j = false) :
    findOneAndUpdateClaim ql jobs = (none, jobs) := by
  rcases claim_inv ql jobs with ⟨heq, _⟩ | ⟨l1, j, l2, hdec, _, hpj, _⟩
  · exact heq
  · exact absurd (h j (by simp [hdec])) (by simp [hpj])

lemma fodel_inv (jid : String) (odb : List OutputDoc) :
    (find_one_and_delete jid odb = (none, odb) ∧ ∀ d ∈ odb, d.job_id ≠ jid) ∨
      (∃ l1 d l2, odb = l1 ++ d :: l2 ∧ (∀ x ∈ l1, x.job_id ≠ jid) ∧
        d.job_id = jid ∧ find_one_and_delete jid odb = (some d, l1 ++ l2)) := by
  induction odb with
  | nil => left; exact ⟨rfl, by simp⟩
  | cons d rest ih =>
    by_cases hp : d.job_id = jid
    · right
      exact ⟨[], d, rest, by simp, by simp, hp,
        by simp [find_one_and_delete, hp]⟩
    · rcases ih with ⟨heq, hall⟩ | ⟨l1, d1, l2, hdec, hpre, hpd, heq⟩
      · left
        constructor
        · simp [find_one_and_delete, hp, heq]
        · intro x hx
          rcases List.mem_cons.mp hx with rfl | hx2
          · exact hp
          · exact hall x hx2
      · right
        refine ⟨d :: l1, d1, l2, by simp [hdec], ?_, hpd, ?_⟩
        · intro x hx
          rcases List.mem_cons.mp hx with rfl | hx2
          · exact hp
          · exact hpre x hx2
        · simp [find_one_and_delete, hp, heq]

/-! ## Lemmas about jobs, claims and ids -/

lemma dget_setRunning (j : Job) :
    dget (setRunning j).result_data "job_state" = some (JVal.s "running") :=
  dget_dset_self j.result_data "job_state" (JVal.s "running")

lemma jobMatches_setRunning (ql : List String) (j : Job) :
    jobMatches ql (setRunning j) = false := by
  simp only [jobMatches, setRunning, Bool.and_eq_false_iff]
  left
  simp only [decide_eq_false_iff_not]
  rw [dget_dset_self]
  simp

lemma dget_flatten_job_id (j : Job) :
    dget (flatten j) "job_id" = some (JVal.s j.job_id) :=
  dget_dset_self j.job_data "job_id" (JVal.s j.job_id)

lemma jobMatches_waiting (ql : List String) (j : Job) (h : jobMatches ql j = true) :
    dget j.result_data "job_state" = some (JVal.s "waiting") := by
  simp only [jobMatches, Bool.and_eq_true, decide_eq_true_eq] at h
  exact h.1

lemma find_one_job_none (jid : String) (jobs : List Job)
    (h : ∀ j ∈ jobs, j.job_id ≠ jid) : find_one_job jid jobs = none := by
  apply List.find?_eq_none.mpr
  intro j hj
  simpa using h j hj

lemma find_one_job_nodup (jid : String) (jobs : List Job)
    (hnd : (jobs.map (·.job_id)).Nodup) (j : Job) (hj : j ∈ jobs)
    (hid : j.job_id = jid) : find_one_job jid jobs = some j := by
  induction jobs with
  | nil => simp at hj
  | cons j0 rest ih =>
    simp only [List.map_cons, List.nodup_cons] at hnd
    rcases List.mem_cons.mp hj with rfl | hj2
    · simp [find_one_job, List.find?_cons, hid]
    · have hne : j0.job_id ≠ jid := by
        intro he
        apply hnd.1
        rw [he, ← hid]
        exact List.mem_map_of_mem (·.job_id) hj2
      have : find_one_job jid rest = some j := ih hnd.2 hj2
      simpa [find_one_job, List.find?_cons, hne] using this

lemma nodup_decomp_left (jobs l1 l2 : List Job) (j x : Job)
    (hnd : (jobs.map (·.job_id)).Nodup) (hdec : jobs = l1 ++ j :: l2)
    (hx : x ∈ l1) : x.job_id ≠ j.job_id := by
  subst hdec
  rw [List.map_append] at hnd
  have hdisj := (List.nodup_append.mp hnd).2.2
  intro he
  exact hdisj (List.mem_map_of_mem (·.job_id) hx) (by simp [he])

lemma nodup_decomp_right (jobs l1 l2 : List Job) (j x : Job)
    (hnd : (jobs.map (·.job_id)).Nodup) (hdec : jobs = l1 ++ j :: l2)
    (hx : x ∈ l2) : x.job_id ≠ j.job_id := by
  subst hdec
  rw [List.map_append, List.map_cons] at hnd
  have h2 := (List.nodup_append.mp hnd).2.1
  rw [List.nodup_cons] at h2
  intro he
  exact h2.1 (he ▸ List.mem_map_of_mem (·.job_id) hx)

lemma get_job_inv (ql : List String) (jobs : List Job) :
    (get_job ql jobs = (none, jobs) ∧ ∀ j ∈ jobs, jobMatches ql j = false) ∨
      (∃ l1 j l2, jobs = l1 ++ j :: l2 ∧ (∀ x ∈ l1, jobMatches ql x = false) ∧
        jobMatches ql j = true ∧
        get_job ql jobs = (some (flatten j), l1 ++ setRunning j :: l2)) := by
  rcases claim_inv ql jobs with ⟨heq, hall⟩ | ⟨l1, j, l2, hdec, hpre, hm, heq⟩
  · left
    exact ⟨by simp [get_job, heq], hall⟩
  · right
    exact ⟨l1, j, l2, hdec, hpre, hm, by simp [get_job, heq]⟩

lemma get_job_none (ql : List String) (jobs : List Job)
    (h : ∀ j ∈ jobs, jobMatches ql j = false) : get_job ql jobs = (none, jobs) := by
  simp [get_job, claim_none ql jobs h]

lemma get_job_noWaiting (cid : String) (ql : List String) (jobs : List Job)
    (h : ∀ x ∈ jobs, x.job_id = cid →
      dget x.result_data "job_state" ≠ some (JVal.s "waiting")) :
    (∀ x ∈ (get_job ql jobs).2, x.job_id = cid →
      dget x.result_data "job_state" ≠ some (JVal.s "waiting")) ∧
    (∀ d, (get_job ql jobs).1 = some d → dget d "job_id" ≠ some (JVal.s cid)) := by
  rcases get_job_inv ql jobs with ⟨heq, hall⟩ | ⟨l1, j, l2, hdec, hpre, hm, heq⟩
  · rw [heq]
    exact ⟨h, by simp⟩
  · rw [heq]
    constructor
    · intro x hx hxid
      simp only [List.mem_append, List.mem_cons] at hx
      rcases hx with hx1 | rfl | hx2
      · exact h x (by simp [hdec, hx1]) hxid
      · rw [dget_setRunning]
        simp
      · exact h x (by simp [hdec, hx2]) hxid
    · intro d hd
      obtain rfl : flatten j = d := Option.some.inj hd
      rw [dget_flatten_job_id]
      intro hc
      have hjid : j.job_id = cid := by simpa using hc
      exact h j (by simp [hdec]) hjid (jobMatches_waiting ql j hm)

lemma claimSeq_cons (ql : List String) (qls : List (List String)) (jobs : List Job) :
    claimSeq (ql :: qls) jobs
      = ((get_job ql jobs).1 :: (claimSeq qls (get_job ql jobs).2).1,
        (claimSeq qls (get_job ql jobs).2).2) := by
  rcases hg : get_job ql jobs with ⟨r, jobs1⟩
  rcases hc : claimSeq qls jobs1 with ⟨rs, jobs2⟩
  simp [claimSeq, hg, hc]

lemma claimSeq_noWaiting (cid : String) (qls : List (List String)) :
    ∀ jobs : List Job,
      (∀ x ∈ jobs, x.job_id = cid →
        dget x.result_data "job_state" ≠ some (JVal.s "waiting")) →
      ∀ d, some d ∈ (claimSeq qls jobs).1 → dget d "job_id" ≠ some (JVal.s cid) := by
  induction qls with
  | nil =>
    intro jobs h d hd
    simp [claimSeq] at hd
  | cons ql rest ih =>
    intro jobs h d hd
    obtain ⟨hpres, hret⟩ := get_job_noWaiting cid ql jobs h
    rw [claimSeq_cons] at hd
    rcases List.mem_cons.mp hd with heq | hd2
    · exact hret d heq.symm
    · exact ih (get_job ql jobs).2 hpres d hd2

lemma claimSeq_none (ql : List String) (n : Nat) : ∀ jobs : List Job,
    (∀ j ∈ jobs, jobMatches ql j = false) →
    claimSeq (List.replicate n ql) jobs = (List.replicate n none, jobs) := by
  induction n with
  | zero =>
    intro jobs h
    simp [claimSeq]
  | succ m ih =>
    intro jobs h
    rw [List.replicate_succ, claimSeq_cons, get_job_none ql jobs h]
    simp [ih jobs h, List.replicate_succ]

/-! ## Lemmas about the output buffer -/

lemma output_post_absent (jid chunk : String) (ts : Nat) (odb : List OutputDoc)
    (h : ∀ d ∈ odb, d.job_id ≠ jid) :
    output_post jid chunk ts odb
      = odb ++ [{ job_id := jid, updated_at := ts, output := [chunk] }] := by
  induction odb with
  | nil => rfl
  | cons d rest ih =>
    have hd : ¬(d.job_id == jid) = true := by simpa using h d (by simp)
    simp [output_post, hd, ih fun x hx => h x (by simp [hx])]

lemma output_post_present (jid chunk : String) (ts : Nat) (odb1 : List OutputDoc)
    (t0 : Nat) (out : List String) (h : ∀ d ∈ odb1, d.job_id ≠ jid) :
    output_post jid chunk ts
        (odb1 ++ [{ job_id := jid, updated_at := t0, output := out }])
      = odb1 ++ [{ job_id := jid, updated_at := ts, output := out ++ [chunk] }] := by
  induction odb1 with
  | nil => simp [output_post]
  | cons d rest ih =>
    have hd : ¬(d.job_id == jid) = true := by simpa using h d (by simp)
    simp [output_post, hd, ih fun x hx => h x (by simp [hx])]

lemma appendAll_present (jid : String) (cs : List (String × Nat)) :
    ∀ (odb1 : List OutputDoc) (t0 : Nat) (out : List String),
      (∀ d ∈ odb1, d.job_id ≠ jid) →
      ∃ t2, appendAll jid cs
          (odb1 ++ [{ job_id := jid, updated_at := t0, output := out }])
        = odb1 ++ [{ job_id := jid, updated_at := t2, output := out ++ cs.map (·.1) }] := by
  induction cs with
  | nil =>
    intro odb1 t0 out h
    exact ⟨t0, by simp [appendAll]⟩
  | cons c rest ih =>
    intro odb1 t0 out h
    have hstep : appendAll jid (c :: rest)
        (odb1 ++ [{ job_id := jid, updated_at := t0, output := out }])
        = appendAll jid rest (output_post jid c.1 c.2
            (odb1 ++ [{ job_id := jid, updated_at := t0, output := out }])) := rfl
    rw [hstep, output_post_present jid c.1 c.2 odb1 t0 out h]
    obtain ⟨t2, ht⟩ := ih odb1 c.2 (out ++ [c.1]) h
    exact ⟨t2, by simpa [List.append_assoc] using ht⟩

/-! ## Lemmas about UUID strings -/

lemma removeUrn_id (cs : List Char) (h : ∀ c ∈ cs, c ≠ 'u') : removeUrn cs = cs := by
  induction cs using removeUrn.induct with
  | case1 rest => exact absurd rfl (h 'u' (by simp))
  | case2 c rest hne ih =>
    rw [removeUrn.eq_def]
    split
    · rename_i rest2 heq
      exact absurd (by simpa using congrArg (fun l => l.headD ' ') heq) (h c (by simp))
    · rename_i c2 rest2 hne2 heq
      obtain ⟨rfl, rfl⟩ := by simpa using heq
      rw [ih fun x hx => h x (by simp [hx])]
    · rename_i heq
      simp at heq
  | case3 => rfl

lemma removeUuidTag_id (cs : List Char) (h : ∀ c ∈ cs, c ≠ 'u') :
    removeUuidTag cs = cs := by
  induction cs using removeUuidTag.induct with
  | case1 rest => exact absurd rfl (h 'u' (by simp))
  | case2 c rest hne ih =>
    rw [removeUuidTag.eq_def]
    split
    · rename_i rest2 heq
      exact absurd (by simpa using congrArg (fun l => l.headD ' ') heq) (h c (by simp))
    · rename_i c2 rest2 hne2 heq
      obtain ⟨rfl, rfl⟩ := by simpa using heq
      rw [ih fun x hx => h x (by simp [hx])]
    · rename_i heq
      simp at heq
  | case3 => rfl

lemma dropWhile_id (p : Char → Bool) (cs : List Char)
    (h : ∀ c ∈ cs, p c = false) : cs.dropWhile p = cs := by
  cases cs with
  | nil => rfl
  | cons c rest => simp [List.dropWhile_cons, h c (by simp)]

lemma stripEndsBraces_id (cs : List Char) (h : ∀ c ∈ cs, isBraceChar c = false) :
    stripEndsBraces cs = cs := by
  unfold stripEndsBraces
  rw [dropWhile_id isBraceChar cs h]
  rw [dropWhile_id isBraceChar cs.reverse fun c hc => h c (List.mem_reverse.mp hc)]
  exact List.reverse_reverse cs

lemma hexChar_lower (n : Nat) (h : n < 16) : isLowerHex (hexChar n) = true := by
  interval_cases n <;> decide

lemma lowerHex_hexPy (c : Char) (h : isLowerHex c = true) : isHexDigitPy c = true := by
  simp only [isLowerHex, Bool.or_eq_true] at h
  simp only [isHexDigitPy, Bool.or_eq_true]
  exact Or.inl h

lemma charsOk_ne_u (c : Char) (h : charsOk c = true) : c ≠ 'u' := by
  intro he
  subst he
  exact absurd h (by decide)

lemma charsOk_brace (c : Char) (h : charsOk c = true) : isBraceChar c = false := by
  by_cases h1 : c = '\x7b'
  · subst h1
    exact absurd h (by decide)
  · by_cases h2 : c = '\x7d'
    · subst h2
      exact absurd h (by decide)
    · simp [isBraceChar, h1, h2]

lemma lowerHex_ne_dash (c : Char) (h : isLowerHex c = true) : (c != '-') = true := by
  by_cases he : c = '-'
  · subst he
    exact absurd h (by decide)
  · simp [he]

lemma mem_map_nibble_lower (u k : Nat) (f : Nat → Nat) :
    ∀ c ∈ (List.range k).map fun p => hexNibble u (f p), isLowerHex c = true := by
  intro c hc
  obtain ⟨p, hp, rfl⟩ := List.mem_map.mp hc
  exact hexChar_lower _ (Nat.mod_lt _ (by norm_num))

lemma variant_lower (u : Nat) : isLowerHex (hexChar (8 + u / 16 ^ 15 % 4)) = true := by
  have h4 : u / 16 ^ 15 % 4 < 4 := Nat.mod_lt _ (by norm_num)
  exact hexChar_lower _ (by omega)

lemma uuid4Chars_ok (r : Nat) : ∀ c ∈ uuid4Chars r, charsOk c = true := by
  intro c hc
  have hg : ∀ (k : Nat) (f : Nat → Nat),
      c ∈ ((List.range k).map fun p => hexNibble (r % 2 ^ 128) (f p)) →
      charsOk c = true := by
    intro k f hm
    simp only [charsOk, Bool.or_eq_true]
    exact Or.inl (mem_map_nibble_lower (r % 2 ^ 128) k f c hm)
  simp only [uuid4Chars] at hc
  rcases List.mem_append.mp hc with h | hc1
  · exact hg 8 _ h
  rcases List.mem_cons.mp hc1 with rfl | hc2
  · decide
  rcases List.mem_append.mp hc2 with h | hc3
  · exact hg 4 _ h
  rcases List.mem_cons.mp hc3 with rfl | hc4
  · decide
  rcases List.mem_cons.mp hc4 with rfl | hc5
  · decide
  rcases List.mem_append.mp hc5 with h | hc6
  · exact hg 3 _ h
  rcases List.mem_cons.mp hc6 with rfl | hc7
  · decide
  rcases List.mem_cons.mp hc7 with rfl | hc8
  · simp only [charsOk, Bool.or_eq_true]
    exact Or.inl (variant_lower (r % 2 ^ 128))
  rcases List.mem_append.mp hc8 with h | hc9
  · exact hg 3 _ h
  rcases List.mem_cons.mp hc9 with rfl | h
  · decide
  · exact hg 12 _ h

lemma hexRun_append (g : List Char) (rest : List Char)
    (h : ∀ c ∈ g, isLowerHex c = true) : hexRun g.length (g ++ rest) = some rest := by
  induction g with
  | nil => rfl
  | cons c g2 ih =>
    simp only [List.length_cons, List.cons_append]
    simp [hexRun, h c (by simp), ih fun x hx => h x (by simp [hx])]

lemma hexRun_map (u k : Nat) (f : Nat → Nat) (rest : List Char) :
    hexRun k (((List.range k).map fun p => hexNibble u (f p)) ++ rest) = some rest := by
  have h := hexRun_append ((List.range k).map fun p => hexNibble u (f p)) rest
    (mem_map_nibble_lower u k f)
  simpa using h

lemma hexRun_map_nil (u k : Nat) (f : Nat → Nat) :
    hexRun k ((List.range k).map fun p => hexNibble u (f p)) = some [] := by
  have h := hexRun_map u k f []
  simpa using h

lemma isV4_uuid4 (r : Nat) : isV4 (uuid4Chars r) = true := by
  simp only [uuid4Chars, isV4, hexRun_map, hexRun_map_nil]
  generalize hm : r % 2 ^ 128 / 16 ^ 15 % 4 = m
  have hv : m < 4 := by
    rw [← hm]
    exact Nat.mod_lt _ (by norm_num)
  interval_cases m <;> decide

lemma isV4String_uuid4 (r : Nat) : isV4String (uuid4 r) = true := isV4_uuid4 r

lemma filter_map_nibble (u k : Nat) (f : Nat → Nat) :
    ((List.range k).map fun p => hexNibble u (f p)).filter (fun c => c != '-')
      = (List.range k).map fun p => hexNibble u (f p) := by
  apply List.filter_eq_self.mpr
  intro c hc
  exact lowerHex_ne_dash c (mem_map_nibble_lower u k f c hc)

lemma filter_cons_dash (cs : List Char) :
    ('-' :: cs).filter (fun c => c != '-') = cs.filter (fun c => c != '-') := by
  simp [List.filter_cons]

lemma filter_cons_keep (c : Char) (cs : List Char) (h : (c != '-') = true) :
    (c :: cs).filter (fun c2 => c2 != '-') = c :: cs.filter (fun c2 => c2 != '-') := by
  simp [List.filter_cons, h]

lemma uuid4_filter (r : Nat) :
    (uuid4Chars r).filter (fun c => c != '-')
      = ((List.range 8).map fun p => hexNibble (r % 2 ^ 128) (31 - p))
        ++ (((List.range 4).map fun p => hexNibble (r % 2 ^ 128) (23 - p))
        ++ ('4' :: (((List.range 3).map fun p => hexNibble (r % 2 ^ 128) (18 - p))
        ++ (hexChar (8 + r % 2 ^ 128 / 16 ^ 15 % 4)
          :: (((List.range 3).map fun p => hexNibble (r % 2 ^ 128) (14 - p))
        ++ ((List.range 12).map fun p => hexNibble (r % 2 ^ 128) (11 - p))))))) := by
  have hvd : (hexChar (8 + r % 2 ^ 128 / 16 ^ 15 % 4) != '-') = true :=
    lowerHex_ne_dash _ (variant_lower (r % 2 ^ 128))
  simp only [uuid4Chars]
  rw [List.filter_append, filter_map_nibble, filter_cons_dash, List.filter_append,
    filter_map_nibble, filter_cons_dash, filter_cons_keep _ _ (by decide),
    List.filter_append, filter_map_nibble, filter_cons_dash,
    filter_cons_keep _ _ hvd, List.filter_append, filter_map_nibble,
    filter_cons_dash, filter_map_nibble]

lemma uuid4_filter_length (r : Nat) :
    ((uuid4Chars r).filter (fun c => c != '-')).length = 32 := by
  rw [uuid4_filter]
  simp

lemma uuid4_filter_hex (r : Nat) :
    ((uuid4Chars r).filter (fun c => c != '-')).all isHexDigitPy = true := by
  rw [List.all_eq_true]
  intro c hc
  have hmem := List.mem_filter.mp hc
  have hok := uuid4Chars_ok r c hmem.1
  simp only [charsOk, Bool.or_eq_true] at hok
  rcases hok with h | h
  · exact lowerHex_hexPy c h
  · rw [beq_iff_eq] at h
    subst h
    simp at hmem

lemma check_valid_uuid4 (r : Nat) : check_valid_uuid (uuid4 r) = true := by
  have hok := uuid4Chars_ok r
  have h1 : removeUrn (uuid4Chars r) = uuid4Chars r :=
    removeUrn_id _ fun c hc => charsOk_ne_u c (hok c hc)
  have h2 : removeUuidTag (uuid4Chars r) = uuid4Chars r :=
    removeUuidTag_id _ fun c hc => charsOk_ne_u c (hok c hc)
  have h3 : stripEndsBraces (uuid4Chars r) = uuid4Chars r :=
    stripEndsBraces_id _ fun c hc => charsOk_brace c (hok c hc)
  have hdata : (uuid4 r).data = uuid4Chars r := rfl
  unfold check_valid_uuid
  rw [hdata, h1, h2, h3]
  simp only [Bool.and_eq_true, decide_eq_true_eq]
  exact ⟨uuid4_filter_length r, uuid4_filter_hex r⟩

lemma update_first_found (p : Job → Bool) (f : Job → Job) (l1 : List Job)
    (j : Job) (l2 : List Job) (hpre : ∀ x ∈ l1, p x = false) (hp : p j = true) :
    update_first p f (l1 ++ j :: l2) = (l1 ++ f j :: l2, 1) := by
  induction l1 with
  | nil => simp [update_first, hp]
  | cons x rest ih =>
    simp [update_first, hpre x (by simp), ih fun y hy => hpre y (by simp [hy])]

lemma nodup_id_unique (jobs : List Job) (hnd : (jobs.map (·.job_id)).Nodup)
    (x j : Job) (hx : x ∈ jobs) (hj : j ∈ jobs) (he : x.job_id = j.job_id) :
    x = j :=
  List.inj_on_of_nodup_map hnd hx hj he

lemma find_one_job_at_end (jid : String) (jobs : List Job) (j : Job)
    (h : ∀ x ∈ jobs, x.job_id ≠ jid) (hj : j.job_id = jid) :
    find_one_job jid (jobs ++ [j]) = some j := by
  induction jobs with
  | nil => simp [find_one_job, hj]
  | cons x rest ih =>
    have hx : ¬(x.job_id == jid) = true := by simpa using h x (by simp)
    simpa [find_one_job, List.find?_cons, hx]
      using ih fun y hy => h y (by simp [hy])

lemma fodel_none (jid : String) (odb : List OutputDoc)
    (h : ∀ d ∈ odb, d.job_id ≠ jid) : find_one_and_delete jid odb = (none, odb) := by
  rcases fodel_inv jid odb with ⟨heq, _⟩ | ⟨l1, d, l2, hdec, _, hpd, _⟩
  · exact heq
  · exact absurd hpd (h d (by simp [hdec]))

lemma fodel_at_end (jid : String) (odb : List OutputDoc) (D : OutputDoc)
    (h : ∀ d ∈ odb, d.job_id ≠ jid) (hD : D.job_id = jid) :
    find_one_and_delete jid (odb ++ [D]) = (some D, odb) := by
  induction odb with
  | nil => simp [find_one_and_delete, hD]
  | cons d rest ih =>
    have hd : ¬(d.job_id == jid) = true := by simpa using h d (by simp)
    simp only [beq_iff_eq] at hd
    simp [find_one_and_delete, hd, ih fun x hx => h x (by simp [hx])]

/-! ## Lemmas about cancellation -/

lemma dget_setCancelled (j : Job) :
    dget (setCancelled j).result_data "job_state" = some (JVal.s "cancelled") :=
  dget_dset_self j.result_data "job_state" (JVal.s "cancelled")

lemma cancelMatch_setCancelled (jid : String) (j : Job) :
    cancelMatch jid (setCancelled j) = false := by
  simp only [cancelMatch, setCancelled]
  rw [dget_dset_self]
  simp

lemma cancelMatch_of_ne (jid : String) (x : Job) (hne : x.job_id ≠ jid) :
    cancelMatch jid x = false := by
  simp [cancelMatch, hne]

lemma cancelMatch_active (jid : String) (j : Job) (hjid : j.job_id = jid)
    (hst : dget j.result_data "job_state" = some (JVal.s "waiting") ∨
      dget j.result_data "job_state" = some (JVal.s "running")) :
    cancelMatch jid j = true := by
  rcases hst with h | h <;> simp [cancelMatch, hjid, h]

lemma cancelMatch_terminal (jid : String) (j : Job)
    (hst : dget j.result_data "job_state" = some (JVal.s "cancelled") ∨
      dget j.result_data "job_state" = some (JVal.s "completed")) :
    cancelMatch jid j = false := by
  rcases hst with h | h <;> simp [cancelMatch, h]

/-! ## Lemmas about the artifact store -/

lemma lastVersionDoc_mem (l : List FileDoc) (g : FileDoc)
    (h : lastVersionDoc l = some g) : g ∈ l := by
  induction l generalizing g with
  | nil => simp [lastVersionDoc] at h
  | cons f rest ih =>
    cases hrest : lastVersionDoc rest with
    | none =>
      simp only [lastVersionDoc, hrest] at h
      simp [Option.some.inj h]
    | some g2 =>
      simp only [lastVersionDoc, hrest] at h
      by_cases hle : f.uploadDate ≤ g2.uploadDate
      · rw [if_pos hle] at h
        have hg : g2 = g := Option.some.inj h
        rw [← hg]
        exact List.mem_cons_of_mem f (ih g2 hrest)
      · rw [if_neg hle] at h
        obtain rfl : f = g := Option.some.inj h
        exact List.mem_cons_self f rest

lemma lastVersionDoc_max (f : FileDoc) (l : List FileDoc) (hf : f ∈ l)
    (hmax : ∀ g ∈ l, g ≠ f → g.uploadDate < f.uploadDate) :
    lastVersionDoc l = some f := by
  induction l with
  | nil => simp at hf
  | cons g rest ih =>
    by_cases hgf : g = f
    · cases hrest : lastVersionDoc rest with
      | none => simp [lastVersionDoc, hrest, hgf]
      | some g2 =>
        have hg2mem := lastVersionDoc_mem rest g2 hrest
        by_cases hg2f : g2 = f
        · simp [lastVersionDoc, hrest, hgf, hg2f, ite_self]
        · have hlt := hmax g2 (List.mem_cons_of_mem g hg2mem) hg2f
          have hnle : ¬f.uploadDate ≤ g2.uploadDate := Nat.not_le.mpr hlt
          simp [lastVersionDoc, hrest, hgf, hnle]
    · have hfrest : f ∈ rest := by
        rcases List.mem_cons.mp hf with rfl | hr
        · exact absurd rfl hgf
        · exact hr
      have hres := ih hfrest fun x hx hne => hmax x (List.mem_cons_of_mem g hx) hne
      have hglt : g.uploadDate < f.uploadDate := hmax g (by simp) hgf
      simp [lastVersionDoc, hres, Nat.le_of_lt hglt]

/-! ## Lemmas about `lastIdxOf` -/

lemma lastIdxOf_not_mem (l : List String) (x : String) (h : x ∉ l) :
    lastIdxOf l x = none := by
  induction l with
  | nil => rfl
  | cons y rest ih =>
    have hxy : ¬(y == x) = true := by
      simp only [beq_iff_eq]
      intro he
      exact h (he ▸ List.mem_cons_self y rest)
    have hrest : x ∉ rest := fun hx => h (List.mem_cons_of_mem y hx)
    simp [lastIdxOf, ih hrest, hxy]

lemma lastIdxOf_nodup (l : List String) (x : String) (hnd : l.Nodup)
    (hx : x ∈ l) :
    ∃ k, lastIdxOf l x = some k ∧ l.get? k = some x ∧ x ∉ l.take k := by
  induction l with
  | nil => simp at hx
  | cons y rest ih =>
    simp only [List.nodup_cons] at hnd
    rcases List.mem_cons.mp hx with rfl | hx2
    · refine ⟨0, ?_, by simp, by simp⟩
      simp [lastIdxOf, lastIdxOf_not_mem rest x hnd.1]
    · obtain ⟨k, hk, hget, htake⟩ := ih hnd.2 hx2
      refine ⟨k + 1, ?_, by simpa using hget, ?_⟩
      · simp [lastIdxOf, hk]
      · intro hmem
        rcases List.mem_cons.mp (by simpa [List.take_succ_cons] using hmem)
            with rfl | h2
        · exact hnd.1 hx2
        · exact htake h2

/-! ## Claim theorems -/

/-- Claim C1: for every claim call with a nonempty queue list, if at least
one job has `result_data.job_state = "waiting"` and `job_data.job_queue` in
the requested queues, the call sets exactly one such job's state to
`"running"` in the single atomic `find_one_and_update` step — every other
record is untouched — and returns that job's `job_data` flattened together
with its `job_id`; if no such job exists, it returns the "none available"
signal (204) and no job's state changes. -/
theorem claim_C1 (ql : List String) (jobs : List Job) (hq : ql ≠ []) :
    ((∃ j ∈ jobs, jobMatches ql j = true) →
      ∃ l1 j l2, jobs = l1 ++ j :: l2 ∧ (∀ x ∈ l1, jobMatches ql x = false) ∧
        jobMatches ql j = true ∧
        job_get ql jobs = (.job (flatten j), l1 ++ setRunning j :: l2) ∧
        dget (setRunning j).result_data "job_state" = some (JVal.s "running") ∧
        dget (flatten j) "job_id" = some (JVal.s j.job_id)) ∧
    ((∀ j ∈ jobs, jobMatches ql j = false) →
      job_get ql jobs = (.noJob, jobs)) := by
  have hqe : ql.isEmpty = false := by
    cases ql
    · exact absurd rfl hq
    · rfl
  constructor
  · rintro ⟨j0, hj0, hm0⟩
    rcases get_job_inv ql jobs with ⟨heq, hall⟩ | ⟨l1, j, l2, hdec, hpre, hm, heq⟩
    · exact absurd (hall j0 hj0) (by simp [hm0])
    · refine ⟨l1, j, l2, hdec, hpre, hm, ?_, dget_setRunning j, dget_flatten_job_id j⟩
      simp [job_get, hqe, heq]
  · intro hall
    simp [job_get, hqe, get_job_none ql jobs hall]

/-- Witness for C1 at a concrete store with one waiting job. -/
theorem claim_C1_witness :
    ((∃ j ∈ [demoJob], jobMatches ["devices"] j = true) →
      ∃ l1 j l2, [demoJob] = l1 ++ j :: l2 ∧
        (∀ x ∈ l1, jobMatches ["devices"] x = false) ∧
        jobMatches ["devices"] j = true ∧
        job_get ["devices"] [demoJob] = (.job (flatten j), l1 ++ setRunning j :: l2) ∧
        dget (setRunning j).result_data "job_state" = some (JVal.s "running") ∧
        dget (flatten j) "job_id" = some (JVal.s j.job_id)) ∧
    ((∀ j ∈ [demoJob], jobMatches ["devices"] j = false) →
      job_get ["devices"] [demoJob] = (.noJob, [demoJob])) :=
  claim_C1 ["devices"] [demoJob] (by decide)

/-- Claim C2: since each claim is one atomic store step, a concurrent batch
of claims is some sequence of `get_job` calls.  Over a store with unique
job ids: (1) once a claim has returned a job, no later sequence of claim
calls (with no intervening state rewrite) ever returns a job with that
job_id again; (2) with exactly one matching waiting job, a run of `n + 1`
claims on the same queue list hands that job to exactly the first caller
and answers "none available" to every other — no job is assigned twice. -/
theorem claim_C2 (jobs : List Job) (hnd : (jobs.map (·.job_id)).Nodup) :
    (∀ ql d jobs1, get_job ql jobs = (some d, jobs1) →
      ∀ qls d2, some d2 ∈ (claimSeq qls jobs1).1 →
        dget d2 "job_id" ≠ dget d "job_id") ∧
    (∀ ql j, j ∈ jobs → jobMatches ql j = true →
      (∀ k ∈ jobs, jobMatches ql k = true → k = j) →
      ∀ n : Nat, (claimSeq (List.replicate (n + 1) ql) jobs).1
        = some (flatten j) :: List.replicate n none) := by
  constructor
  · intro ql d jobs1 hg qls d2 hmem
    rcases get_job_inv ql jobs with ⟨heq, _⟩ | ⟨l1, j, l2, hdec, hpre, hm, heq⟩
    · rw [heq] at hg
      simp at hg
    · rw [heq] at hg
      have hd : some (flatten j) = some d := congrArg Prod.fst hg
      have hjobs1 : l1 ++ setRunning j :: l2 = jobs1 := congrArg Prod.snd hg
      obtain rfl : flatten j = d := Option.some.inj hd
      subst hjobs1
      have hinv : ∀ x ∈ l1 ++ setRunning j :: l2, x.job_id = j.job_id →
          dget x.result_data "job_state" ≠ some (JVal.s "waiting") := by
        intro x hx hxid
        rcases List.mem_append.mp hx with hx1 | hx2
        · exact absurd hxid (nodup_decomp_left jobs l1 l2 j x hnd hdec hx1)
        · rcases List.mem_cons.mp hx2 with rfl | hx3
          · rw [dget_setRunning]
            simp
          · exact absurd hxid (nodup_decomp_right jobs l1 l2 j x hnd hdec hx3)
      rw [dget_flatten_job_id]
      exact claimSeq_noWaiting j.job_id qls _ hinv d2 hmem
  · intro ql j hj hm huniq n
    rcases get_job_inv ql jobs with ⟨heq, hall⟩ | ⟨l1, j0, l2, hdec, hpre, hm0, heq⟩
    · exact absurd (hall j hj) (by simp [hm])
    · have hjj : j0 = j := huniq j0 (by simp [hdec]) hm0
      have hnone : ∀ x ∈ l1 ++ setRunning j0 :: l2, jobMatches ql x = false := by
        intro x hx
        rcases List.mem_append.mp hx with hx1 | hx2
        · exact hpre x hx1
        · rcases List.mem_cons.mp hx2 with rfl | hx3
          · exact jobMatches_setRunning ql j0
          · by_cases hxm : jobMatches ql x
            · have hxj : x = j := huniq x (by simp [hdec, hx3]) hxm
              have hne := nodup_decomp_right jobs l1 l2 j0 x hnd hdec hx3
              rw [hxj, hjj] at hne
              exact absurd rfl hne
            · exact eq_false_of_ne_true hxm
      have hcs := claimSeq_none ql n (l1 ++ setRunning j0 :: l2) hnone
      rw [hjj] at hcs
      rw [List.replicate_succ, claimSeq_cons, heq]
      simp [hcs, hjj]

/-- Witness for C2 at a concrete one-job store. -/
theorem claim_C2_witness :
    (∀ ql d jobs1, get_job ql [demoJob] = (some d, jobs1) →
      ∀ qls d2, some d2 ∈ (claimSeq qls jobs1).1 →
        dget d2 "job_id" ≠ dget d "job_id") ∧
    (∀ ql j, j ∈ [demoJob] → jobMatches ql j = true →
      (∀ k ∈ [demoJob], jobMatches ql k = true → k = j) →
      ∀ n : Nat, (claimSeq (List.replicate (n + 1) ql) [demoJob]).1
        = some (flatten j) :: List.replicate n none) :=
  claim_C2 [demoJob] (by simp)

/-- Claim C3: starting from a store holding no buffer for `jid`, appending a
nonempty sequence of chunks and draining returns exactly those chunks,
joined with newline separators in append order, and the same atomic
fetch-and-delete removes the buffer, restoring the store — so a second
drain with no intervening append returns the "empty" signal (204), as does
a drain for a job that never had an append. -/
theorem claim_C3 (jid : String) (hv : check_valid_uuid jid = true)
    (odb : List OutputDoc) (hnone : ∀ d ∈ odb, d.job_id ≠ jid)
    (chunks : List (String × Nat)) (hne : chunks ≠ []) :
    (output_get jid (appendAll jid chunks odb)).1
        = .content (String.intercalate "\n" (chunks.map (·.1))) ∧
    (output_get jid (appendAll jid chunks odb)).2 = odb ∧
    (output_get jid ((output_get jid (appendAll jid chunks odb)).2)).1 = .empty ∧
    (output_get jid odb).1 = .empty := by
  obtain ⟨c, cs, rfl⟩ : ∃ c cs, chunks = c :: cs := by
    cases chunks
    · exact absurd rfl hne
    · exact ⟨_, _, rfl⟩
  have hstep : appendAll jid (c :: cs) odb
      = appendAll jid cs (output_post jid c.1 c.2 odb) := rfl
  have hempty : (output_get jid odb).1 = .empty := by
    simp [output_get, hv, fodel_none jid odb hnone]
  obtain ⟨t2, ht⟩ := appendAll_present jid cs odb c.2 [c.1] hnone
  have hall : appendAll jid (c :: cs) odb
      = odb ++ [{ job_id := jid, updated_at := t2, output := c.1 :: cs.map (·.1) }] := by
    rw [hstep, output_post_absent jid c.1 c.2 odb hnone]
    simpa using ht
  have hfd := fodel_at_end jid odb
    { job_id := jid, updated_at := t2, output := c.1 :: cs.map (·.1) } hnone rfl
  have hget : output_get jid (appendAll jid (c :: cs) odb)
      = (.content (String.intercalate "\n" (c.1 :: cs.map (·.1))), odb) := by
    rw [hall]
    simp [output_get, hv, hfd]
  refine ⟨?_, ?_, ?_, hempty⟩
  · rw [hget]
    simp
  · rw [hget]
  · rw [hget]
    exact hempty

/-- Witness for C3: two appends then a drain on an initially empty store. -/
theorem claim_C3_witness :
    (output_get demoUuid (appendAll demoUuid [("a", 1), ("b", 2)] [])).1
        = .content (String.intercalate "\n" ([("a", 1), ("b", 2)].map (·.1))) ∧
    (output_get demoUuid (appendAll demoUuid [("a", 1), ("b", 2)] [])).2 = [] ∧
    (output_get demoUuid
      ((output_get demoUuid (appendAll demoUuid [("a", 1), ("b", 2)] [])).2)).1
        = .empty ∧
    (output_get demoUuid ([] : List OutputDoc)).1 = .empty :=
  claim_C3 demoUuid (by decide) [] (by simp) [("a", 1), ("b", 2)] (by simp)

/-- Claim C4: for a job in state `"waiting"`, the position query returns the
zero-based index of that job in the scan-order enumeration of all waiting
jobs on the same queue; for a job_id with no waiting record (unknown,
already claimed, or terminal) it returns the distinct "not found or already
started" signal (410), not a validation error. -/
theorem claim_C4 (jid : String) (hv : check_valid_uuid jid = true)
    (jobs : List Job) (hnd : (jobs.map (·.job_id)).Nodup) :
    (∀ j ∈ jobs, j.job_id = jid →
      dget j.result_data "job_state" = some (JVal.s "waiting") →
      ∃ k, job_position_get jid jobs = .pos k ∧
        ((waitingFilter (dget j.job_data "job_queue") jobs).map (·.job_id)).get? k
          = some jid ∧
        jid ∉ ((waitingFilter (dget j.job_data "job_queue") jobs).map (·.job_id)).take k) ∧
    ((∀ j ∈ jobs, j.job_id = jid →
        dget j.result_data "job_state" ≠ some (JVal.s "waiting")) →
      job_position_get jid jobs = .gone) := by
  constructor
  · intro j hj hjid hwait
    have hfind : find_one_job jid jobs = some j :=
      find_one_job_nodup jid jobs hnd j hj hjid
    have hqeq : dget (dset j.job_data "job_id" (JVal.s jid)) "job_queue"
        = dget j.job_data "job_queue" :=
      dget_dset_ne j.job_data "job_id" "job_queue" (JVal.s jid) (by decide)
    have hjin : j ∈ waitingFilter (dget j.job_data "job_queue") jobs :=
      List.mem_filter.mpr ⟨hj, by simp [hwait]⟩
    have hmem : jid ∈ (waitingFilter (dget j.job_data "job_queue") jobs).map (·.job_id) :=
      hjid ▸ List.mem_map_of_mem (·.job_id) hjin
    have hsubnd : ((waitingFilter (dget j.job_data "job_queue") jobs).map (·.job_id)).Nodup :=
      ((List.filter_sublist jobs).map (·.job_id)).nodup hnd
    obtain ⟨k, hk, hget, htake⟩ := lastIdxOf_nodup _ jid hsubnd hmem
    refine ⟨k, ?_, hget, htake⟩
    simp [job_position_get, job_get_id, hv, hfind, hqeq, hk]
  · intro hall
    cases hfind : find_one_job jid jobs with
    | none => simp [job_position_get, job_get_id, hv, hfind]
    | some j0 =>
      have hj0mem : j0 ∈ jobs := List.mem_of_find?_eq_some hfind
      have hnm : jid ∉ (waitingFilter
          (dget (dset j0.job_data "job_id" (JVal.s jid)) "job_queue") jobs).map
            (·.job_id) := by
        intro hmem
        obtain ⟨x, hx, hxid⟩ := List.mem_map.mp hmem
        have hxf := List.mem_filter.mp hx
        have hxw : dget x.result_data "job_state" = some (JVal.s "waiting") := by
          have h2 := hxf.2
          simp only [Bool.and_eq_true, decide_eq_true_eq] at h2
          exact h2.2
        exact hall x hxf.1 hxid hxw
      simp [job_position_get, job_get_id, hv, hfind, lastIdxOf_not_mem _ _ hnm]

/-- Witness for C4: a two-job queue, positions 0 and 1. -/
theorem claim_C4_witness :
    (∀ j ∈ [demoJobU], j.job_id = demoUuid →
      dget j.result_data "job_state" = some (JVal.s "waiting") →
      ∃ k, job_position_get demoUuid [demoJobU] = .pos k ∧
        ((waitingFilter (dget j.job_data "job_queue") [demoJobU]).map (·.job_id)).get? k
          = some demoUuid ∧
        demoUuid ∉
          ((waitingFilter (dget j.job_data "job_queue") [demoJobU]).map (·.job_id)).take k) ∧
    ((∀ j ∈ [demoJobU], j.job_id = demoUuid →
        dget j.result_data "job_state" ≠ some (JVal.s "waiting")) →
      job_position_get demoUuid [demoJobU] = .gone) :=
  claim_C4 demoUuid (by decide) [demoJobU] (by simp)

/-- Claim C5: posting a result merges each given key/value pair into the
job's `result_data` namespace with last-writer-wins semantics per field and
no restriction on which keys may be set; only the addressed job changes.
In particular a field map whose last `"job_state"` entry carries `v`
overwrites the state-machine-controlled `job_state` with `v` — also on a
terminal job — bypassing the state machine's guard. -/
theorem claim_C5 (jid : String) (hv : check_valid_uuid jid = true)
    (fields : Data) (jobs : List Job) (hnd : (jobs.map (·.job_id)).Nodup)
    (j : Job) (hj : j ∈ jobs) (hjid : j.job_id = jid) :
    ∃ l1 l2, jobs = l1 ++ j :: l2 ∧
      result_post jid fields jobs
        = (.ok, l1 ++ { j with result_data := applyFields j.result_data fields } :: l2) ∧
      (∀ k, dget (applyFields j.result_data fields) k
        = Option.or (lastVal fields k) (dget j.result_data k)) ∧
      (∀ v, lastVal fields "job_state" = some v →
        dget (applyFields j.result_data fields) "job_state" = some v) := by
  obtain ⟨l1, l2, hdec⟩ := List.append_of_mem hj
  have hpre : ∀ x ∈ l1, (x.job_id == jid) = false := by
    intro x hx
    have := nodup_decomp_left jobs l1 l2 j x hnd hdec hx
    simp [hjid ▸ this]
  have hupd := update_first_found (·.job_id == jid)
    (fun k => { k with result_data := applyFields k.result_data fields })
    l1 j l2 hpre (by simp [hjid])
  refine ⟨l1, l2, hdec, ?_, ?_, ?_⟩
  · rw [hdec]
    simp [result_post, hv, hupd]
  · intro k
    exact applyFields_dget fields k j.result_data
  · intro v hval
    rw [applyFields_dget fields "job_state" j.result_data, hval]
    rfl

/-- Witness for C5: a result post carrying `job_state` on a completed job. -/
theorem claim_C5_witness :
    ∃ l1 l2, [demoJobU] = l1 ++ demoJobU :: l2 ∧
      result_post demoUuid [("job_state", JVal.s "hijacked")] [demoJobU]
        = (.ok, l1 ++ { demoJobU with
            result_data := applyFields demoJobU.result_data
              [("job_state", JVal.s "hijacked")] } :: l2) ∧
      (∀ k, dget (applyFields demoJobU.result_data [("job_state", JVal.s "hijacked")]) k
        = Option.or (lastVal [("job_state", JVal.s "hijacked")] k)
            (dget demoJobU.result_data k)) ∧
      (∀ v, lastVal [("job_state", JVal.s "hijacked")] "job_state" = some v →
        dget (applyFields demoJobU.result_data [("job_state", JVal.s "hijacked")])
          "job_state" = some v) :=
  claim_C5 demoUuid (by decide) [("job_state", JVal.s "hijacked")] [demoJobU]
    (by simp) demoJobU (by simp) rfl

/-- Claim C6: cancelling a job whose `job_state` is `"waiting"` or
`"running"` succeeds, sets exactly that job's state to `"cancelled"` and
changes nothing else; cancelling a job already in a terminal state
(`"cancelled"` or `"completed"`) modifies nothing and returns a conflict
signal distinct from success; consequently a second cancel of a job just
cancelled always returns the conflict. -/
theorem claim_C6 (jid : String) (hv : check_valid_uuid jid = true)
    (jobs : List Job) (hnd : (jobs.map (·.job_id)).Nodup)
    (j : Job) (hj : j ∈ jobs) (hjid : j.job_id = jid) :
    ((dget j.result_data "job_state" = some (JVal.s "waiting") ∨
        dget j.result_data "job_state" = some (JVal.s "running")) →
      ∃ l1 l2, jobs = l1 ++ j :: l2 ∧
        action_post jid "cancel" jobs = (.ok, l1 ++ setCancelled j :: l2) ∧
        dget (setCancelled j).result_data "job_state" = some (JVal.s "cancelled")) ∧
    ((dget j.result_data "job_state" = some (JVal.s "cancelled") ∨
        dget j.result_data "job_state" = some (JVal.s "completed")) →
      action_post jid "cancel" jobs = (.conflict, jobs)) ∧
    (∀ jobs2, action_post jid "cancel" jobs = (.ok, jobs2) →
      action_post jid "cancel" jobs2 = (.conflict, jobs2)) := by
  refine ⟨?_, ?_, ?_⟩
  · intro hst
    obtain ⟨l1, l2, hdec⟩ := List.append_of_mem hj
    have hpre : ∀ x ∈ l1, cancelMatch jid x = false := by
      intro x hx
      exact cancelMatch_of_ne jid x
        (hjid ▸ nodup_decomp_left jobs l1 l2 j x hnd hdec hx)
    have hupd := update_first_found (cancelMatch jid) setCancelled l1 j l2 hpre
      (cancelMatch_active jid j hjid hst)
    refine ⟨l1, l2, hdec, ?_, dget_setCancelled j⟩
    rw [hdec]
    simp [action_post, cancel_job, hv, hupd]
  · intro hst
    have hall : ∀ x ∈ jobs, cancelMatch jid x = false := by
      intro x hx
      by_cases hxid : x.job_id = jid
      · have hxj : x = j := nodup_id_unique jobs hnd x j hx hj (by rw [hxid, hjid])
        rw [hxj]
        exact cancelMatch_terminal jid j hst
      · exact cancelMatch_of_ne jid x hxid
    have hupd := update_first_none (cancelMatch jid) setCancelled jobs hall
    simp [action_post, cancel_job, hv, hupd]
  · intro jobs2 hok
    simp only [action_post, hv, Bool.not_true, Bool.false_eq_true, if_false,
      if_pos rfl] at hok
    rcases hcan : cancel_job jid jobs with ⟨res, jobs3⟩
    rw [hcan] at hok
    cases res with
    | conflict => simp at hok
    | ok =>
      have hjobs3 : jobs3 = jobs2 := by simpa using hok
      subst hjobs3
      rcases update_first_inv (cancelMatch jid) setCancelled jobs with
          ⟨heq, _⟩ | ⟨l1, j0, l2, hdec, hpre, hpj, heq⟩
      · rw [cancel_job, heq] at hcan
        simp at hcan
      · rw [cancel_job, heq] at hcan
        simp only [if_neg (by simp : ¬(1 : Nat) = 0)] at hcan
        have hjobs3 : l1 ++ setCancelled j0 :: l2 = jobs3 := congrArg Prod.snd hcan
        have hj0id : j0.job_id = jid := by
          have h2 := hpj
          simp only [cancelMatch, Bool.and_eq_true, beq_iff_eq] at h2
          exact h2.1
        have hall2 : ∀ x ∈ jobs3, cancelMatch jid x = false := by
          intro x hx
          rw [← hjobs3] at hx
          rcases List.mem_append.mp hx with hx1 | hx2
          · exact hpre x hx1
          · rcases List.mem_cons.mp hx2 with rfl | hx3
            · exact cancelMatch_setCancelled jid j0
            · exact cancelMatch_of_ne jid x
                (hj0id ▸ nodup_decomp_right jobs l1 l2 j0 x hnd hdec hx3)
        have hupd := update_first_none (cancelMatch jid) setCancelled jobs3 hall2
        simp [action_post, cancel_job, hv, hupd]

/-- Witness for C6 at a one-job store holding a waiting job. -/
theorem claim_C6_witness :
    ((dget demoJobU.result_data "job_state" = some (JVal.s "waiting") ∨
        dget demoJobU.result_data "job_state" = some (JVal.s "running")) →
      ∃ l1 l2, [demoJobU] = l1 ++ demoJobU :: l2 ∧
        action_post demoUuid "cancel" [demoJobU]
          = (.ok, l1 ++ setCancelled demoJobU :: l2) ∧
        dget (setCancelled demoJobU).result_data "job_state"
          = some (JVal.s "cancelled")) ∧
    ((dget demoJobU.result_data "job_state" = some (JVal.s "cancelled") ∨
        dget demoJobU.result_data "job_state" = some (JVal.s "completed")) →
      action_post demoUuid "cancel" [demoJobU] = (.conflict, [demoJobU])) ∧
    (∀ jobs2, action_post demoUuid "cancel" [demoJobU] = (.ok, jobs2) →
      action_post demoUuid "cancel" jobs2 = (.conflict, jobs2)) :=
  claim_C6 demoUuid (by decide) [demoJobU] (by simp) demoJobU (by simp) rfl

/-- Claim C7: an artifact put stores a new whole version at the end of the
store without deleting or replacing any prior version; a get returns the
"no artifact" signal (204) when no version exists, and otherwise the bytes
of the most recently uploaded version only — in particular, after two
sequential puts (with advancing upload timestamps) a get returns the bytes
of the second put, not the first. -/
theorem claim_C7 (jid : String) (hv : check_valid_uuid jid = true)
    (files : List FileDoc) (c1 c2 : String) (t1 t2 : Nat)
    (hfresh : ∀ f ∈ files, f.filename = jid ++ ".artifact" → f.uploadDate < t1)
    (ht : t1 < t2) :
    (artifacts_post jid c1 t1 files).2
        = files ++ [{ filename := jid ++ ".artifact", uploadDate := t1, content := c1 }] ∧
    ((∀ f ∈ files, f.filename ≠ jid ++ ".artifact") →
      artifacts_get jid files = .empty) ∧
    (∀ f ∈ files, f.filename = jid ++ ".artifact" →
      (∀ g ∈ files, g.filename = jid ++ ".artifact" → g ≠ f →
        g.uploadDate < f.uploadDate) →
      artifacts_get jid files = .file f.content) ∧
    artifacts_get jid
        ((artifacts_post jid c2 t2 ((artifacts_post jid c1 t1 files).2)).2)
      = .file c2 := by
  have hgen : ∀ (fs : List FileDoc) (f : FileDoc), f ∈ fs →
      f.filename = jid ++ ".artifact" →
      (∀ g ∈ fs, g.filename = jid ++ ".artifact" → g ≠ f →
        g.uploadDate < f.uploadDate) →
      artifacts_get jid fs = .file f.content := by
    intro fs f hf hfn hmax
    have hfin : f ∈ fs.filter (·.filename == jid ++ ".artifact") :=
      List.mem_filter.mpr ⟨hf, by simp [hfn]⟩
    have hmax2 : ∀ g ∈ fs.filter (·.filename == jid ++ ".artifact"), g ≠ f →
        g.uploadDate < f.uploadDate := by
      intro g hg hne
      have hgf := List.mem_filter.mp hg
      exact hmax g hgf.1 (by simpa using hgf.2) hne
    have hlast := lastVersionDoc_max f _ hfin hmax2
    simp [artifacts_get, hv, get_last_version, hlast]
  refine ⟨by simp [artifacts_post, hv], ?_, hgen files, ?_⟩
  · intro hno
    have hfil : files.filter (·.filename == jid ++ ".artifact") = [] := by
      apply List.filter_eq_nil_iff.mpr
      intro f hf
      simpa using hno f hf
    simp [artifacts_get, hv, get_last_version, hfil, lastVersionDoc]
  · have hpost1 : (artifacts_post jid c1 t1 files).2
        = files ++ [{ filename := jid ++ ".artifact", uploadDate := t1, content := c1 }] := by
      simp [artifacts_post, hv]
    have hpost2 : (artifacts_post jid c2 t2 ((artifacts_post jid c1 t1 files).2)).2
        = (files ++ [{ filename := jid ++ ".artifact", uploadDate := t1, content := c1 }])
          ++ [{ filename := jid ++ ".artifact", uploadDate := t2, content := c2 }] := by
      rw [hpost1]
      simp [artifacts_post, hv]
    rw [hpost2]
    refine hgen _ { filename := jid ++ ".artifact", uploadDate := t2, content := c2 }
      (by simp) rfl ?_
    intro g hg hgfn hgne
    rcases List.mem_append.mp hg with hg1 | hg2
    · rcases List.mem_append.mp hg1 with hg3 | hg4
      · exact Nat.lt_trans (hfresh g hg3 hgfn) ht
      · rcases List.mem_singleton.mp hg4 with rfl
        exact ht
    · rcases List.mem_singleton.mp hg2 with rfl
      exact absurd rfl hgne

/-- Witness for C7: two puts then a get on an initially empty store. -/
theorem claim_C7_witness :
    (artifacts_post demoUuid "v1" 1 []).2
        = [] ++ [{ filename := demoUuid ++ ".artifact", uploadDate := 1, content := "v1" }] ∧
    ((∀ f ∈ ([] : List FileDoc), f.filename ≠ demoUuid ++ ".artifact") →
      artifacts_get demoUuid [] = .empty) ∧
    (∀ f ∈ ([] : List FileDoc), f.filename = demoUuid ++ ".artifact" →
      (∀ g ∈ ([] : List FileDoc), g.filename = demoUuid ++ ".artifact" → g ≠ f →
        g.uploadDate < f.uploadDate) →
      artifacts_get demoUuid [] = .file f.content) ∧
    artifacts_get demoUuid
        ((artifacts_post demoUuid "v2" 2 ((artifacts_post demoUuid "v1" 1 []).2)).2)
      = .file "v2" :=
  claim_C7 demoUuid (by decide) [] "v1" "v2" 1 2 (by simp) (by decide)

/-- Claim C8: a valid submission (truthy `job_queue`) that supplies no
`job_id` returns the freshly generated id `uuid4 r`, which is a well-formed
canonical version-4 UUID; provided the generated id does not collide with
an existing one (the contract of the random generator), the job is created
at the end of the store with `result_data.job_state = "waiting"`, and
fetching the job by the returned id yields the original payload intact with
the id merged in.  A submission that supplies a syntactically valid
non-empty `job_id` keeps exactly that id in the created job. -/
theorem claim_C8 (r now : Nat) (data : Data) (jobs : List Job)
    (hq : truthy (dget data "job_queue") = true)
    (hfresh : ∀ j ∈ jobs, j.job_id ≠ uuid4 r) :
    (dget data "job_id" = none →
      job_post (uuid4 r) now data jobs
          = (.ok (uuid4 r), jobs ++ [mkJob (uuid4 r) now data]) ∧
        isV4String (uuid4 r) = true ∧
        check_valid_uuid (uuid4 r) = true ∧
        dget (mkJob (uuid4 r) now data).result_data "job_state"
          = some (JVal.s "waiting") ∧
        job_get_id (uuid4 r) (jobs ++ [mkJob (uuid4 r) now data])
          = .ok (dset data "job_id" (JVal.s (uuid4 r))) ∧
        (∀ k, k ≠ "job_id" →
          dget (dset data "job_id" (JVal.s (uuid4 r))) k = dget data k) ∧
        dget (dset data "job_id" (JVal.s (uuid4 r))) "job_id"
          = some (JVal.s (uuid4 r))) ∧
    (∀ v : String, dget data "job_id" = some (JVal.s v) → v ≠ "" →
      check_valid_uuid v = true →
      job_post (uuid4 r) now data jobs
          = (.ok v, jobs ++ [mkJob v now (dremove data "job_id")]) ∧
        (mkJob v now (dremove data "job_id")).job_id = v) := by
  constructor
  · intro hnid
    have hb : job_builder (uuid4 r) now data = some (mkJob (uuid4 r) now data) := by
      simp [job_builder, hnid, dremove_of_dget_none data "job_id" hnid]
    have hpost : job_post (uuid4 r) now data jobs
        = (.ok (uuid4 r), jobs ++ [mkJob (uuid4 r) now data]) := by
      simp [job_post, hq, hb, mkJob]
    refine ⟨hpost, isV4String_uuid4 r, check_valid_uuid4 r, by simp [mkJob, dget],
      ?_, ?_, dget_dset_self data "job_id" (JVal.s (uuid4 r))⟩
    · have hfind := find_one_job_at_end (uuid4 r) jobs (mkJob (uuid4 r) now data)
        hfresh rfl
      simp only [job_get_id, check_valid_uuid4 r, Bool.not_true, Bool.false_eq_true,
        if_false, hfind]
      rfl
    · intro k hk
      exact dget_dset_ne data "job_id" k (JVal.s (uuid4 r)) hk
  · intro v hval hvne hvcheck
    have hb : job_builder (uuid4 r) now data = some (mkJob v now (dremove data "job_id")) := by
      simp [job_builder, hval, hvne, hvcheck]
    constructor
    · simp [job_post, hq, hb, mkJob]
    · rfl

/-- Witness for C8 at randomness 0 on the empty store. -/
theorem claim_C8_witness :
    (dget [("job_queue", JVal.s "q")] "job_id" = none →
      job_post (uuid4 0) 0 [("job_queue", JVal.s "q")] []
          = (.ok (uuid4 0), [] ++ [mkJob (uuid4 0) 0 [("job_queue", JVal.s "q")]]) ∧
        isV4String (uuid4 0) = true ∧
        check_valid_uuid (uuid4 0) = true ∧
        dget (mkJob (uuid4 0) 0 [("job_queue", JVal.s "q")]).result_data "job_state"
          = some (JVal.s "waiting") ∧
        job_get_id (uuid4 0) ([] ++ [mkJob (uuid4 0) 0 [("job_queue", JVal.s "q")]])
          = .ok (dset [("job_queue", JVal.s "q")] "job_id" (JVal.s (uuid4 0))) ∧
        (∀ k, k ≠ "job_id" →
          dget (dset [("job_queue", JVal.s "q")] "job_id" (JVal.s (uuid4 0))) k
            = dget [("job_queue", JVal.s "q")] k) ∧
        dget (dset [("job_queue", JVal.s "q")] "job_id" (JVal.s (uuid4 0))) "job_id"
          = some (JVal.s (uuid4 0))) ∧
    (∀ v : String, dget [("job_queue", JVal.s "q")] "job_id" = some (JVal.s v) →
      v ≠ "" → check_valid_uuid v = true →
      job_post (uuid4 0) 0 [("job_queue", JVal.s "q")] []
          = (.ok v, [] ++ [mkJob v 0 (dremove [("job_queue", JVal.s "q")] "job_id")]) ∧
        (mkJob v 0 (dremove [("job_queue", JVal.s "q")] "job_id")).job_id = v) :=
  claim_C8 0 0 [("job_queue", JVal.s "q")] [] (by decide) (by simp)

/-- Counterexample to claim C9 as stated: a submission that supplies the
empty string as `job_id` supplies a job_id that is not a syntactically
valid UUID, yet `job_post` does not reject it — `job_builder` treats any
falsy `job_id` as absent (Python `if job_id and isinstance(job_id, str)`),
generates a fresh id and creates the record. -/
theorem claim_C9_counterexample :
    dget [("job_queue", JVal.s "q"), ("job_id", JVal.s "")] "job_id"
        = some (JVal.s "") ∧
    check_valid_uuid "" = false ∧
    job_post demoUuid 0 [("job_queue", JVal.s "q"), ("job_id", JVal.s "")] []
      = (.ok demoUuid, [mkJob demoUuid 0 [("job_queue", JVal.s "q")]]) := by
  refine ⟨by decide, by decide, ?_⟩
  decide

/-- Claim C9 (amended): a submission whose supplied `job_id` is a non-empty
string that is not a syntactically valid UUID is rejected with a validation
error and no job record is created (an empty-string or non-string `job_id`
is instead treated as absent and a fresh id is generated); likewise a
submission with a missing or empty `job_queue` is rejected before any
record is created. -/
theorem claim_C9_amended (genId : String) (now : Nat) (data : Data)
    (jobs : List Job) :
    (∀ v : String, dget data "job_id" = some (JVal.s v) → v ≠ "" →
      check_valid_uuid v = false →
      (job_post genId now data jobs).2 = jobs ∧
        ((job_post genId now data jobs).1 = .invalidId ∨
          (job_post genId now data jobs).1 = .invalidQueue)) ∧
    (truthy (dget data "job_queue") = false →
      job_post genId now data jobs = (.invalidQueue, jobs)) := by
  constructor
  · intro v hval hvne hvcheck
    by_cases hq : truthy (dget data "job_queue")
    · have hb : job_builder genId now data = none := by
        simp [job_builder, hval, hvne, hvcheck]
      constructor
      · simp [job_post, hq, hb]
      · left
        simp [job_post, hq, hb]
    · constructor
      · simp [job_post, hq]
      · right
        simp [job_post, hq]
  · intro hq
    simp [job_post, hq]

/-- Witness for the amended C9: a non-empty invalid id is rejected with no
record created. -/
theorem claim_C9_amended_witness :
    (job_post "g" 0 [("job_queue", JVal.s "q"), ("job_id", JVal.s "xyz")] []).2
        = [] ∧
    ((job_post "g" 0 [("job_queue", JVal.s "q"), ("job_id", JVal.s "xyz")] []).1
        = .invalidId ∨
      (job_post "g" 0 [("job_queue", JVal.s "q"), ("job_id", JVal.s "xyz")] []).1
        = .invalidQueue) :=
  (claim_C9_amended "g" 0 [("job_queue", JVal.s "q"), ("job_id", JVal.s "xyz")] []).1
    "xyz" (by decide) (by decide) (by decide)

/-- Claim C10: posting result fields for a syntactically valid job_id with
no matching job record answers the success acknowledgement "OK" while the
jobs collection is completely unchanged — the `update_one` matches nothing
and does not upsert, so the posted fields are silently dropped. -/
theorem claim_C10 (jid : String) (hv : check_valid_uuid jid = true)
    (fields : Data) (jobs : List Job)
    (hnone : ∀ j ∈ jobs, j.job_id ≠ jid) :
    result_post jid fields jobs = (.ok, jobs) := by
  have h := update_first_none (·.job_id == jid)
    (fun j => { j with result_data := applyFields j.result_data fields }) jobs
    fun x hx => by simpa using hnone x hx
  simp [result_post, hv, h]

/-- Witness for C10 on the empty store. -/
theorem claim_C10_witness :
    result_post demoUuid [("foo", JVal.s "bar")] [] = (.ok, []) :=
  claim_C10 demoUuid (by decide) [("foo", JVal.s "bar")] [] (by simp)

end Testflinger
